import Mathlib

/-!
Verification of the iikoserver credential/session management layer.

The definitions below are a shallow embedding of `src/iikoserver/token_manager.py`
and `src/iikoserver/api_client_manager.py`:

* a sequential (uncontended) state model of `TokenManager` and the two
  process-wide registries, used for the functional and error-handling claims;
* a small-step interleaving machine for the coroutines running
  `TokenManager.refresh_token_if_401`, used for the concurrency claims
  (asyncio is cooperative, so a step is a maximal segment of code between
  suspension points, executed atomically);
* the GET/POST request-encoding selectors of the list reads.
-/

namespace IikoVerify

/-! ## Credential identity (`ApiCredentials`, api_client_manager.py lines 60-77) -/

/-- Identity derivation `ApiCredentials.key_id`: the Python source is
the f-string `f"{self.host}:{self.login}"`. -/
def keyId (host login : String) : String := host ++ ":" ++ login

/-- Credential triple mirroring the `ApiCredentials` dataclass. -/
structure Credentials where
  host : String
  login : String
  password : String
deriving DecidableEq, Repr

/-! ## TokenManager sequential state model (token_manager.py) -/

/-- Modelled from the spec: `hash_password` applies `hashlib.sha1(...).hexdigest()`
from the Python standard library (outside this repository). It is treated as an
abstract deterministic derivation from the raw password; the claims under proof
never depend on the concrete digest, only on the stored value being a function of
the creation-time password. -/
def hashPassword (password : String) : String := "sha1:" ++ password

/-- State of one `TokenManager` instance plus the slice of its `ApiClient`
transport it mutates (`configuration.api_key`).

* `token` is `self._token`;
* `tokenVersion` is `self._token_version`;
* `eventSet` is `self._refresh_event.is_set()` (`True` means no refresh in
  progress);
* `apiKey` is the `iikoCookieAuth` entry of `api_client.configuration.api_key`
  (`none` means the dict was reset to `\x7b\x7d`);
* `apiClient` identifies the `ApiClient` object passed at construction. -/
structure TMState where
  apiClient : Nat
  login : String
  passwordHash : String
  tmKeyId : String
  token : Option String
  tokenVersion : Nat
  eventSet : Bool
  apiKey : Option String
deriving DecidableEq, Repr

/-- Constructor `TokenManager.__init__` (lines 41-65): hashes the password,
starts with no token, version 0, and the refresh event set. The fresh
`Configuration` of the facade's `ApiClient` holds no auth key. -/
def initTM (apiClient : Nat) (login password keyIdArg : String) : TMState :=
  { apiClient := apiClient
    login := login
    passwordHash := hashPassword password
    tmKeyId := keyIdArg
    token := none
    tokenVersion := 0
    eventSet := true
    apiKey := none }

/-- Outcome of the remote `auth_get` network call inside `_fetch_token`. -/
inductive FetchOutcome where
  | ok (tok : String)
  | unauthorized
  | failed (msg : String)
deriving DecidableEq, Repr

/-- Errors raised by the token layer as `IikoServerAuthException`
(exceptions.py): a 401 on the auth request itself, or any other fetch error. -/
inductive AuthExc where
  | invalidCredentials
  | fetchError (msg : String)
deriving DecidableEq, Repr

/-- Exception raised by a business call, as classified by the code:
`isinstance(error, UnauthorizedException)` plus the `status` attribute probed
with `getattr(error, "status", None)`. -/
structure ApiError where
  isUnauthorized : Bool
  status : Option Nat
deriving DecidableEq, Repr

/-- Classification used both by `refresh_token_if_401` (lines 180-181) and by
the two `except` branches of `execute_with_retry`. -/
def is401 (e : ApiError) : Bool := e.isUnauthorized || e.status == some 401

/-- Body of `_fetch_token` (lines 94-132): first resets
`configuration.api_key`, then performs `auth_get`; a 401 becomes
`IikoServerAuthException` (invalid credentials), any other failure is wrapped
in `IikoServerAuthException` as well. -/
def fetchTokenStep (s : TMState) (outcome : FetchOutcome) :
    TMState × Except AuthExc String :=
  let s1 := { s with apiKey := none }
  match outcome with
  | .ok tok => (s1, .ok tok)
  | .unauthorized => (s1, .error .invalidCredentials)
  | .failed m => (s1, .error (.fetchError m))

/-- `_set_token` (lines 134-142): stores the token and binds it as the
`iikoCookieAuth` api key. -/
def setToken (s : TMState) (tok : String) : TMState :=
  { s with token := some tok, apiKey := some tok }

/-- Result of `ensure_token` seen by the caller: normal return or a raised
`IikoServerAuthException`. -/
inductive EnsureResult where
  | ok
  | raisedE (e : AuthExc)
deriving DecidableEq, Repr

/-- Uncontended run of `ensure_token` (lines 144-165). The final `Nat` counts
`auth_get` network calls. On success the version is incremented and the event
is set again (the `finally`); on failure the token stays absent and the
exception propagates. -/
def ensureToken (s : TMState) (outcome : FetchOutcome) :
    TMState × EnsureResult × Nat :=
  if s.token.isSome then (s, .ok, 0)
  else
    match fetchTokenStep s outcome with
    | (s1, .ok tok) =>
        ({ setToken s1 tok with
            tokenVersion := s1.tokenVersion + 1, eventSet := true }, .ok, 1)
    | (s1, .error e) => ({ s1 with eventSet := true }, .raisedE e, 1)

/-- Result of `refresh_token_if_401`: `False` (not a 401), `True`
(refreshed or already refreshed), or a raised `IikoServerAuthException`. -/
inductive RefreshResult where
  | notApplicable
  | refreshed
  | raisedE (e : AuthExc)
deriving DecidableEq, Repr

/-- Uncontended run of `refresh_token_if_401` (lines 167-227) by a single
caller: the event is set and the lock free, so the version double-check
trivially passes and the fetch protocol runs. On fetch failure the `except`
block clears the token and the api key, the `finally` sets the event, and the
exception propagates. The final `Nat` counts `auth_get` network calls. -/
def refreshTokenIf401 (s : TMState) (err : ApiError) (outcome : FetchOutcome) :
    TMState × RefreshResult × Nat :=
  if is401 err then
    match fetchTokenStep s outcome with
    | (s1, .ok tok) =>
        ({ setToken s1 tok with
            tokenVersion := s1.tokenVersion + 1, eventSet := true }, .refreshed, 1)
    | (s1, .error e) =>
        ({ s1 with token := none, apiKey := none, eventSet := true },
          .raisedE e, 1)
  else (s, .notApplicable, 0)

/-- Run of `logout` (lines 229-245): a no-op without a token; otherwise the
remote `logout_get` is called (reported as `some token`, failures are
swallowed) and the local token state is cleared unconditionally. -/
def logoutTM (s : TMState) : TMState × Option String :=
  match s.token with
  | none => (s, none)
  | some tok => ({ s with token := none, apiKey := none }, some tok)

/-! ## Process-wide registries -/

/-- Keyed lookup in a registry held as an insertion-ordered association list
(Python `dict`). -/
def regLookup {α : Type} (reg : List (String × α)) (k : String) : Option α :=
  (reg.find? (fun p => p.1 == k)).map (fun p => p.2)

/-- The `TokenManager._instances` registry. -/
abbrev TMRegistry := List (String × TMState)

/-- `TokenManager.get_instance` (lines 67-92): under the class-wide lock,
return the instance stored for `key_id` if present — ignoring the freshly
supplied `api_client`, `login` and `password` — else construct and store a
new one. -/
def getTMInstance (reg : TMRegistry) (apiClient : Nat)
    (login password keyIdArg : String) : TMRegistry × TMState :=
  match regLookup reg keyIdArg with
  | some m => (reg, m)
  | none =>
      let m := initTM apiClient login password keyIdArg
      (reg ++ [(keyIdArg, m)], m)

/-- State of one `IikoServerApiClientManager` facade: its credentials and the
id of the `ApiClient` transport created in `__init__`. -/
structure FacadeState where
  credentials : Credentials
  facadeApiClient : Nat
deriving DecidableEq, Repr

/-- The `IikoServerApiClientManager._instances` registry. -/
abbrev FacadeRegistry := List (String × FacadeState)

/-- `IikoServerApiClientManager.get_instance` (lines 114-134): keyed by
`credentials.key_id`; on a hit the stored facade is returned untouched even if
the supplied credentials carry a different password. A fresh facade gets a
fresh transport (`nextClient` models object identity of the new `ApiClient`). -/
def getFacadeInstance (reg : FacadeRegistry) (c : Credentials)
    (nextClient : Nat) : FacadeRegistry × FacadeState :=
  match regLookup reg (keyId c.host c.login) with
  | some f => (reg, f)
  | none =>
      let f : FacadeState := { credentials := c, facadeApiClient := nextClient }
      (reg ++ [(keyId c.host c.login, f)], f)

/-! ## Global teardown (`close_all`) -/

/-- Externally visible actions during global teardown: a remote
`logout_get` for an authority's key, or closing a facade's HTTP transport. -/
inductive TeardownEvent where
  | logoutCall (k : String)
  | transportClose (k : String)
deriving DecidableEq, Repr

/-- `TokenManager.close_all` (lines 247-253): logs out every stored manager in
registry order (only managers holding a token reach the remote logout
endpoint), then clears the registry. Returns the emptied registry and the
emitted network calls. -/
def tmCloseAll (reg : TMRegistry) : TMRegistry × List TeardownEvent :=
  ([], reg.filterMap (fun p =>
    if p.2.token.isSome then some (.logoutCall p.1) else none))

/-- The two process-wide registries together. -/
structure World where
  tmRegistry : TMRegistry
  facadeRegistry : FacadeRegistry
deriving DecidableEq, Repr

/-- `IikoServerApiClientManager.close_all` (lines 155-169): first
`TokenManager.close_all()` (all logouts), then `api_client.close()` for every
facade, then both registries are cleared. The event list records the order of
the external actions. -/
def closeAllWorld (w : World) : World × List TeardownEvent :=
  let tmPart := tmCloseAll w.tmRegistry
  let closeLog := w.facadeRegistry.map (fun p => TeardownEvent.transportClose p.1)
  (⟨tmPart.1, []⟩, tmPart.2 ++ closeLog)

/-! ## The retry-on-unauthorized wrapper (`execute_with_retry`) -/

/-- Result of one invocation of the wrapped operation. -/
inductive OpResult (α : Type) where
  | ok (v : α)
  | err (e : ApiError)
deriving DecidableEq, Repr

/-- Outcome of `execute_with_retry` as seen by its caller. -/
inductive ExecOutcome (α : Type) where
  | ok (v : α)
  | apiErr (e : ApiError)
  | authRaised (a : AuthExc)
deriving DecidableEq, Repr

/-- `execute_with_retry` (api_client_manager.py lines 183-211).

`ensure` is the outcome of `_ensure_token_manager` (which runs `ensure_token`
on first use and may raise before the operation is ever invoked). `op k` is
the outcome of the `(k+1)`-th invocation of `api_call`; `s`/`fetchOutcome`
feed the token manager if a refresh is needed. Both `except` branches collapse
to the `is401` test: `UnauthorizedException` is caught directly, any other
exception is probed for `status == 401`; non-401 errors are re-raised
unchanged. The return value of `refresh_token_if_401` is ignored by the
source; a raised refresh failure propagates. The final `Nat` counts invocations
of the operation. -/
def executeWithRetry {α : Type} (ensure : Option AuthExc) (s : TMState)
    (fetchOutcome : FetchOutcome) (op : Nat → OpResult α) :
    TMState × ExecOutcome α × Nat :=
  match ensure with
  | some a => (s, .authRaised a, 0)
  | none =>
    match op 0 with
    | .ok v => (s, .ok v, 1)
    | .err e =>
      if is401 e then
        match refreshTokenIf401 s e fetchOutcome with
        | (s', .raisedE a, _) => (s', .authRaised a, 1)
        | (s', _, _) =>
          match op 1 with
          | .ok v => (s', .ok v, 2)
          | .err e2 => (s', .apiErr e2, 2)
      else (s, .apiErr e, 1)

/-! ## List-read request encoding (GET vs POST selection) -/

/-- Product type enum (`iikoserver_client.models.product_type.ProductType`).
Enum members are always truthy in Python, unlike strings. -/
inductive ProductType where
  | dish
  | goods
  | modifier
  | prepared
deriving DecidableEq, Repr

/-- Python test `lst is not None and len(lst) > 1` used in the `use_get`
computations. -/
def moreThanOne {α : Type} (l : Option (List α)) : Bool :=
  match l with
  | some xs => decide (1 < xs.length)
  | none => false

/-- Python selection `lst[0] if lst and len(lst) == 1 else None`: a non-`None`
list of length exactly one yields its element. -/
def singleOf {α : Type} (l : Option (List α)) : Option α :=
  match l with
  | some [x] => some x
  | _ => none

/-- Python wrapping `[v] if v else None` applied to an optional string: `None`
and the falsy empty string both become `None`. -/
def wrapStr (s : Option String) : Option (List String) :=
  match s with
  | some v => if v = "" then none else some [v]
  | none => none

/-- Python wrapping `[v] if v else None` applied to an optional enum member
(always truthy when present). -/
def wrapType (t : Option ProductType) : Option (List ProductType) :=
  match t with
  | some v => some [v]
  | none => none

/-- POST payload for `parent_ids`: `[] if parent_ids_empty else
([parent_id] if parent_id else None)` with
`parent_ids_empty = parent_ids is not None and len(parent_ids) == 0`. -/
def postParentIds (parentIds : Option (List String)) : Option (List String) :=
  if parentIds = some [] then some []
  else wrapStr (singleOf parentIds)

/-- Request emitted by `get_products_list`: either
`v2_entities_products_list_get` or `v2_entities_products_list_post`,
with the payload each endpoint receives. -/
inductive ProductsRequest where
  | get (includeDeleted : Option Bool) (ids nums : Option (List String))
        (types : Option (List ProductType))
        (categoryIds parentIds : Option (List String))
  | post (includeDeleted : Option Bool) (ids nums : Option (List String))
         (types : Option (List ProductType))
         (categoryIds parentIds : Option (List String))
deriving DecidableEq, Repr

/-- `get_products_list` (lines 459-509) combined with the payload
construction of `_get_products_via_get` / `_get_products_via_post`
(lines 511-558). -/
def getProductsRequest (includeDeleted : Option Bool)
    (ids nums : Option (List String)) (types : Option (List ProductType))
    (categoryIds parentIds : Option (List String)) : ProductsRequest :=
  let useGet := moreThanOne ids || moreThanOne nums || moreThanOne categoryIds
      || moreThanOne parentIds || moreThanOne types
  if useGet then
    .get includeDeleted ids nums types categoryIds parentIds
  else
    .post includeDeleted (wrapStr (singleOf ids)) (wrapStr (singleOf nums))
      (wrapType (singleOf types)) (wrapStr (singleOf categoryIds))
      (postParentIds parentIds)

/-- Request emitted by `get_product_groups_list`: either
`v2_entities_products_group_list_get` or `..._post` with its payload. -/
inductive GroupsRequest where
  | get (includeDeleted : Option Bool) (ids parentIds : Option (List String))
        (revisionFrom : Option Int) (nums codes : Option (List String))
  | post (includeDeleted : Option Bool) (ids parentIds : Option (List String))
         (revisionFrom : Option Int) (nums codes : Option (List String))
deriving DecidableEq, Repr

/-- `get_product_groups_list` (lines 560-608) combined with the payload
construction of `_get_product_groups_via_get` / `_get_product_groups_via_post`
(lines 610-657). -/
def getProductGroupsRequest (includeDeleted : Option Bool)
    (ids parentIds : Option (List String)) (revisionFrom : Option Int)
    (nums codes : Option (List String)) : GroupsRequest :=
  let useGet := moreThanOne ids || moreThanOne parentIds || moreThanOne nums
      || moreThanOne codes
  if useGet then
    .get includeDeleted ids parentIds revisionFrom nums codes
  else
    .post includeDeleted (wrapStr (singleOf ids)) (postParentIds parentIds)
      revisionFrom (wrapStr (singleOf nums)) (wrapStr (singleOf codes))

/-- Request emitted by `get_user_categories_list`: either
`v2_entities_products_category_list_get` or `..._post` with its payload. -/
inductive CategoriesRequest where
  | get (includeDeleted : Option Bool) (ids : Option (List String))
        (revisionFrom : Option Int)
  | post (includeDeleted : Option Bool) (ids : Option (List String))
         (revisionFrom : Option Int)
deriving DecidableEq, Repr

/-- `get_user_categories_list` (lines 852-884) combined with the payload
construction of `_get_user_categories_via_get` / `_get_user_categories_via_post`
(lines 886-920). Note there is no explicit-empty-list branch here. -/
def getUserCategoriesRequest (includeDeleted : Option Bool)
    (ids : Option (List String)) (revisionFrom : Option Int) :
    CategoriesRequest :=
  if moreThanOne ids then
    .get includeDeleted ids revisionFrom
  else
    .post includeDeleted (wrapStr (singleOf ids)) revisionFrom

/-! ## Interleaving machine for concurrent `refresh_token_if_401`

asyncio schedules coroutines cooperatively: code between two suspension
points runs atomically. The suspension points of `refresh_token_if_401` are
`await self._refresh_event.wait()` (line 192), `await self._lock` (line 195)
and the `auth_get` network call inside `_fetch_token` (line 207). A machine
step therefore executes one maximal atomic segment of one task. -/

/-- Outcome of the `k`-th `auth_get` call during a run (token values are
numbered). -/
inductive FOutcome where
  | ok (tok : Nat)
  | err
deriving DecidableEq, Repr

/-- Program counter of one coroutine running `refresh_token_if_401` on a 401
error.

* `failed`: the business call raised a 401; the coroutine has not yet read
  `version_before`;
* `entered s`: `version_before = s` has been read, the event not yet checked
  (used to start tasks whose snapshot was captured before the run);
* `waiting s`: blocked in `await self._refresh_event.wait()`;
* `acquiring s`: blocked in `async with self._lock`;
* `fetching s`: holding the lock, `auth_get` in flight;
* `doneTrue`: returned `True`;
* `doneRaised`: propagated the raised `IikoServerAuthException`. -/
inductive RPC where
  | failed
  | entered (s : Nat)
  | waiting (s : Nat)
  | acquiring (s : Nat)
  | fetching (s : Nat)
  | doneTrue
  | doneRaised
deriving DecidableEq, Repr

/-- One authority's shared state plus the coroutines working on it.
`fetchCount` counts completed `auth_get` calls. -/
structure MConfig where
  token : Option Nat
  apiKey : Option Nat
  version : Nat
  eventSet : Bool
  lockOwner : Option Nat
  fetchCount : Nat
  tasks : List RPC
deriving DecidableEq, Repr

/-- Replace the program counter of task `i`. -/
def setTask (c : MConfig) (i : Nat) (pc : RPC) : MConfig :=
  { c with tasks := c.tasks.set i pc }

/-- Atomic segment lines 190-194 entered with snapshot `s`: if the event is
set, proceed to the lock; otherwise block on the event. -/
def checkEvent (c : MConfig) (i : Nat) (s : Nat) : MConfig :=
  if c.eventSet then setTask c i (.acquiring s) else setTask c i (.waiting s)

/-- Configuration after task `i` acquires the lock with the version still at
its snapshot `s`: the event is cleared (line 205) and `_fetch_token` resets
the transport api key before issuing `auth_get` (line 104). -/
def acquireConfig (c : MConfig) (i s : Nat) : MConfig :=
  { c with lockOwner := some i, eventSet := false, apiKey := none,
           tasks := c.tasks.set i (.fetching s) }

/-- Configuration after task `i`'s `auth_get` returns `tok`: the token is
stored and bound as the api key (lines 134-142), the version incremented
(line 209), the event set in the `finally` (line 225), the lock released and
`True` returned. -/
def fetchOkConfig (c : MConfig) (i tok : Nat) : MConfig :=
  { c with token := some tok, apiKey := some tok, version := c.version + 1,
           eventSet := true, lockOwner := none,
           fetchCount := c.fetchCount + 1,
           tasks := c.tasks.set i .doneTrue }

/-- Configuration after task `i`'s `auth_get` raises: the `except` block
clears the token and api key (lines 221-222), the version is untouched, the
event is set in the `finally`, the lock released and the wrapped exception
propagated. -/
def fetchErrConfig (c : MConfig) (i : Nat) : MConfig :=
  { c with token := none, apiKey := none, eventSet := true,
           lockOwner := none, fetchCount := c.fetchCount + 1,
           tasks := c.tasks.set i .doneRaised }

/-- One scheduling step giving task `i` its next atomic segment; a blocked,
finished or nonexistent task leaves the configuration unchanged.

* from `failed`: read `version_before` (lines 186-190) and check the event —
  no suspension point separates the two;
* from `waiting`: `Event.wait()` resumes only once the event is set, and
  `return True` follows with no further await;
* from `acquiring`: the lock is acquired only when free; the version
  double-check (line 197), and — when the version still matches — the
  `event.clear()` plus the api-key reset opening `_fetch_token`, run before
  the next suspension point (the `auth_get` call);
* from `fetching`: the network call returns. On success: store the token,
  bind the api key, increment the version, set the event (`finally`), release
  the lock, return `True`. On failure: clear token and api key (the `except`
  block), set the event, release the lock, propagate the exception. -/
def mstep (oracle : Nat → FOutcome) (c : MConfig) (i : Nat) : MConfig :=
  match c.tasks[i]? with
  | none => c
  | some .failed => checkEvent c i c.version
  | some (.entered s) => checkEvent c i s
  | some (.waiting _) =>
      if c.eventSet then setTask c i .doneTrue else c
  | some (.acquiring s) =>
      if c.lockOwner = none then
        if c.version = s then acquireConfig c i s
        else setTask c i .doneTrue
      else c
  | some (.fetching _) =>
      match oracle c.fetchCount with
      | .ok tok => fetchOkConfig c i tok
      | .err => fetchErrConfig c i
  | some .doneTrue => c
  | some .doneRaised => c

/-- Run a schedule: a list of task indices, each given one atomic step. -/
def mrun (oracle : Nat → FOutcome) (c : MConfig) (sched : List Nat) : MConfig :=
  sched.foldl (mstep oracle) c

/-- All fetches during a run succeed (the remote authentication endpoint is
healthy). -/
def AllFetchesOk (oracle : Nat → FOutcome) : Prop :=
  ∀ k, ∃ tok, oracle k = .ok tok

/-- Every task has finished (returned or raised). -/
def AllDone (c : MConfig) : Prop :=
  ∀ pc ∈ c.tasks, pc = RPC.doneTrue ∨ pc = RPC.doneRaised

instance (c : MConfig) : Decidable (AllDone c) :=
  inferInstanceAs
    (Decidable (∀ pc ∈ c.tasks, pc = RPC.doneTrue ∨ pc = RPC.doneRaised))

/-- Initial configuration for a coalescing episode: version `v0`, refresh
event set, lock free, no completed fetch, and `n` coroutines that all
observed a 401 and captured the same snapshot `v0` before any of them ran. -/
def initCoalesce (tok0 : Option Nat) (v0 n : Nat) : MConfig :=
  { token := tok0, apiKey := tok0, version := v0, eventSet := true,
    lockOwner := none, fetchCount := 0,
    tasks := List.replicate n (.entered v0) }

/-- Initial configuration with `n` coroutines that each observed a 401 but
have not yet entered the refresh protocol. -/
def initFailed (tok0 : Option Nat) (v0 n : Nat) : MConfig :=
  { token := tok0, apiKey := tok0, version := v0, eventSet := true,
    lockOwner := none, fetchCount := 0,
    tasks := List.replicate n .failed }

/-- Machine invariant maintained by every step as long as the authentication
endpoint answers successfully.

* `fetch_lock`: a fetching task holds the lock, the event is clear and the
  version still equals its snapshot;
* `lock_fetch`: the lock is only ever held across the fetch;
* `event_fetch`: the event is clear only while some fetch is in flight;
* `snap_le`: snapshots of waiting or entered tasks never exceed the version;
* `wait_fresh`: once the event is set again, a waiting task's snapshot is
  strictly below the version and a token is present. -/
structure MachineInv (c : MConfig) : Prop where
  fetch_lock : ∀ (i s : Nat), c.tasks[i]? = some (RPC.fetching s) →
    c.lockOwner = some i ∧ c.eventSet = false ∧ c.version = s
  lock_fetch : ∀ i : Nat, c.lockOwner = some i →
    ∃ s : Nat, c.tasks[i]? = some (RPC.fetching s)
  event_fetch : c.eventSet = false →
    ∃ (i s : Nat), c.tasks[i]? = some (RPC.fetching s)
  snap_le : ∀ (i s : Nat), (c.tasks[i]? = some (RPC.waiting s)
      ∨ c.tasks[i]? = some (RPC.entered s)) → s ≤ c.version
  wait_fresh : ∀ (i s : Nat), c.tasks[i]? = some (RPC.waiting s) →
    c.eventSet = false ∨ (s < c.version ∧ c.token.isSome = true)

/-- Program counters reachable in a coalescing episode where every
participant captured the snapshot `v0`: no `failed` entry point and no raised
exception. -/
def SnapPC (v0 : Nat) (pc : RPC) : Prop :=
  pc = .entered v0 ∨ pc = .waiting v0 ∨ pc = .acquiring v0 ∨ pc = .fetching v0
    ∨ pc = .doneTrue

/-- Strengthened invariant for a coalescing episode started at version `v0`
with every snapshot equal to `v0`. -/
structure CoalesceInv (v0 : Nat) (c : MConfig) : Prop where
  base : MachineInv c
  version_count : c.version = v0 + c.fetchCount
  count_le : c.fetchCount ≤ 1
  snaps : ∀ pc ∈ c.tasks, SnapPC v0 pc
  done_count : RPC.doneTrue ∈ c.tasks → 1 ≤ c.fetchCount

/-! ## Helper lemmas -/

/-- Splitting a list around a separator character: when neither prefix
contains the separator, equal concatenations force equal parts. -/
theorem append_colon_inj : ∀ (as as' bs bs' : List Char), ':' ∉ as → ':' ∉ as' →
    as ++ ':' :: bs = as' ++ ':' :: bs' → as = as' ∧ bs = bs' := by
  intro as
  induction as with
  | nil =>
    intro as' bs bs' _ h2 h
    cases as' with
    | nil => simpa using h
    | cons c t =>
      simp only [List.nil_append, List.cons_append, List.cons.injEq] at h
      obtain ⟨hc, -⟩ := h
      exact absurd (hc ▸ List.mem_cons_self c t) h2
  | cons a as ih =>
    intro as' bs bs' h1 h2 h
    cases as' with
    | nil =>
      simp only [List.cons_append, List.nil_append, List.cons.injEq] at h
      exact absurd (h.1 ▸ List.mem_cons_self a as) h1
    | cons a' t =>
      simp only [List.cons_append, List.cons.injEq] at h
      obtain ⟨ha, ht⟩ := h
      have h1' : ':' ∉ as := fun hm => h1 (List.mem_cons_of_mem _ hm)
      have h2' : ':' ∉ t := fun hm => h2 (List.mem_cons_of_mem _ hm)
      obtain ⟨he, hb⟩ := ih t bs bs' h1' h2' ht
      exact ⟨by rw [ha, he], hb⟩

/-- Characterization of the Python test `lst is not None and len(lst) > 1`. -/
theorem moreThanOne_iff {α : Type} (l : Option (List α)) :
    moreThanOne l = true ↔ ∃ xs, l = some xs ∧ 2 ≤ xs.length := by
  cases l with
  | none => simp [moreThanOne]
  | some xs =>
    simp only [moreThanOne, decide_eq_true_eq, Option.some.injEq]
    constructor
    · intro h; exact ⟨xs, rfl, by omega⟩
    · rintro ⟨ys, hy, h⟩; subst hy; omega

/-- Negative form of the `use_get` test for a single filter. -/
theorem moreThanOne_eq_false {α : Type} (l : Option (List α))
    (h : ∀ xs, l = some xs → xs.length ≤ 1) : moreThanOne l = false := by
  cases l with
  | none => rfl
  | some xs =>
    simp only [moreThanOne, decide_eq_false_iff_not, not_lt]
    exact h xs rfl

/-! ## C9 — credential identity derivation -/

/-- C9 counterexample: `key_id` is plain string concatenation with `:`;
two distinct (host, login) pairs can collide when the host itself contains a
colon, so the claimed injectivity over all pairs is false. -/
theorem keyId_collision_counterexample :
    keyId "a:b" "c" = keyId "a" "b:c" ∧ ¬("a:b" = "a" ∧ "c" = "b:c") := by
  decide

/-- C9 (amended): the identity derivation is
`key_id(host, login) = host ++ ":" ++ login`, and it is injective on every
pair whose host contains no colon — under that proviso two identities are
equal iff both fields match. -/
theorem keyId_injective_of_colon_free :
    ∀ host1 login1 host2 login2 : String,
      ':' ∉ host1.data → ':' ∉ host2.data →
      keyId host1 login1 = keyId host2 login2 →
      host1 = host2 ∧ login1 = login2 := by
  intro h1 l1 h2 l2 hc1 hc2 heq
  have hcolon : (":" : String).data = [':'] := rfl
  have hd : h1.data ++ ':' :: l1.data = h2.data ++ ':' :: l2.data := by
    have hdat := congrArg String.data heq
    simpa [keyId, String.data_append, hcolon] using hdat
  obtain ⟨ha, hb⟩ := append_colon_inj _ _ _ _ hc1 hc2 hd
  exact ⟨String.ext ha, String.ext hb⟩

/-- Witness for the amended C9 theorem at a concrete colon-free input. -/
theorem keyId_injective_of_colon_free_witness :
    "srv.example" = "srv.example" ∧ "bob" = "bob" :=
  keyId_injective_of_colon_free "srv.example" "bob" "srv.example" "bob"
    (by decide) (by decide) rfl

/-! ## C10 — registry cache hits ignore the fresh arguments -/

/-- C10: both `get_instance` registries are idempotent in the key: on a cache
hit the registry is unchanged and the stored instance is returned exactly as
stored (token, version, password hash, transport included), regardless of the
`api_client`, `login`, `password` or credential password supplied by the new
call. -/
theorem getInstance_cache_hit :
    (∀ (reg : TMRegistry) (ac : Nat) (login pw k : String) (m : TMState),
        regLookup reg k = some m → getTMInstance reg ac login pw k = (reg, m)) ∧
    (∀ (reg : FacadeRegistry) (c : Credentials) (next : Nat) (f : FacadeState),
        regLookup reg (keyId c.host c.login) = some f →
        getFacadeInstance reg c next = (reg, f)) := by
  constructor
  · intro reg ac login pw k m h
    simp [getTMInstance, h]
  · intro reg c next f h
    simp [getFacadeInstance, h]

/-- Witness for C10: a registry holding an authority with a live token under
key `h:l` returns it untouched even though the new call supplies a different
api client, login and password. -/
theorem getInstance_cache_hit_witness :
    getTMInstance [("h:l", initTM 0 "l" "p" "h:l")] 99 "otherL" "otherP" "h:l"
      = ([("h:l", initTM 0 "l" "p" "h:l")], initTM 0 "l" "p" "h:l") ∧
    getFacadeInstance [("h:l", ⟨⟨"h", "l", "p"⟩, 0⟩)] ⟨"h", "l", "newPassword"⟩ 7
      = ([("h:l", ⟨⟨"h", "l", "p"⟩, 0⟩)], ⟨⟨"h", "l", "p"⟩, 0⟩) :=
  ⟨getInstance_cache_hit.1 _ 99 "otherL" "otherP" _ _ (by decide),
   getInstance_cache_hit.2 _ ⟨"h", "l", "newPassword"⟩ 7 _ (by decide)⟩

/-! ## C8 — GET/POST encoding selection for the list reads -/

/-- C8 counterexample: an explicitly empty `ids` filter does not produce the
empty-list POST encoding — it is dropped to an absent (`None`) payload, both
for `get_products_list` and for `get_user_categories_list`; only the
`parent_ids` filter has the explicit-empty branch. -/
theorem emptyFilter_sent_absent_counterexample :
    getProductsRequest none (some []) none none none none
      = ProductsRequest.post none none none none none none ∧
    ProductsRequest.post none none none none none none
      ≠ ProductsRequest.post none (some []) none none none none ∧
    getUserCategoriesRequest none (some []) none
      = CategoriesRequest.post none none none ∧
    getProductsRequest none none none none none (some [])
      = ProductsRequest.post none none none none none (some []) := by
  decide

/-- C8 (amended): a filter list of length ≥ 2 in any position selects the
multi-value GET encoding carrying every filter verbatim; otherwise the POST
encoding is selected, where a length-1 filter with a non-empty (truthy) value
is carried as exactly that single value, the `parent_ids` filter of the
products and product-groups reads is the only filter carried as an explicit
empty list when empty, and every other empty or absent filter list is sent as
absent. -/
theorem listRead_encoding_rules :
    (∀ (incl : Option Bool) (ids nums : Option (List String))
        (types : Option (List ProductType)) (catIds parentIds : Option (List String)),
        ((∃ xs : List String,
            (ids = some xs ∨ nums = some xs ∨ catIds = some xs ∨ parentIds = some xs)
            ∧ 2 ≤ xs.length)
          ∨ (∃ ts : List ProductType, types = some ts ∧ 2 ≤ ts.length)) →
        getProductsRequest incl ids nums types catIds parentIds
          = .get incl ids nums types catIds parentIds) ∧
    (∀ (incl : Option Bool) (ids parentIds : Option (List String))
        (rev : Option Int) (nums codes : Option (List String)),
        (∃ xs : List String,
            (ids = some xs ∨ parentIds = some xs ∨ nums = some xs ∨ codes = some xs)
            ∧ 2 ≤ xs.length) →
        getProductGroupsRequest incl ids parentIds rev nums codes
          = .get incl ids parentIds rev nums codes) ∧
    (∀ (incl : Option Bool) (ids : Option (List String)) (rev : Option Int),
        (∃ xs : List String, ids = some xs ∧ 2 ≤ xs.length) →
        getUserCategoriesRequest incl ids rev = .get incl ids rev) ∧
    (∀ l : Option (List String), l = none ∨ l = some [] → wrapStr (singleOf l) = none) ∧
    (∀ v : String, v ≠ "" → wrapStr (singleOf (some [v])) = some [v]) ∧
    (∀ t : ProductType, wrapType (singleOf (some [t])) = some [t]) ∧
    (postParentIds (some []) = some []) ∧
    (∀ v : String, v ≠ "" → postParentIds (some [v]) = some [v]) ∧
    (postParentIds none = none) ∧
    (∀ (incl : Option Bool) (ids nums : Option (List String))
        (types : Option (List ProductType)) (catIds parentIds : Option (List String)),
        (∀ xs : List String,
            ids = some xs ∨ nums = some xs ∨ catIds = some xs ∨ parentIds = some xs →
            xs.length ≤ 1) →
        (∀ ts : List ProductType, types = some ts → ts.length ≤ 1) →
        getProductsRequest incl ids nums types catIds parentIds
          = .post incl (wrapStr (singleOf ids)) (wrapStr (singleOf nums))
              (wrapType (singleOf types)) (wrapStr (singleOf catIds))
              (postParentIds parentIds)) ∧
    (∀ (incl : Option Bool) (ids parentIds : Option (List String))
        (rev : Option Int) (nums codes : Option (List String)),
        (∀ xs : List String,
            ids = some xs ∨ parentIds = some xs ∨ nums = some xs ∨ codes = some xs →
            xs.length ≤ 1) →
        getProductGroupsRequest incl ids parentIds rev nums codes
          = .post incl (wrapStr (singleOf ids)) (postParentIds parentIds)
              rev (wrapStr (singleOf nums)) (wrapStr (singleOf codes))) ∧
    (∀ (incl : Option Bool) (ids : Option (List String)) (rev : Option Int),
        (∀ xs : List String, ids = some xs → xs.length ≤ 1) →
        getUserCategoriesRequest incl ids rev
          = .post incl (wrapStr (singleOf ids)) rev) := by
  refine ⟨?_, ?_, ?_, ?_, ?_, ?_, ?_, ?_, ?_, ?_, ?_, ?_⟩
  · intro incl ids nums types catIds parentIds h
    have huse : (moreThanOne ids || moreThanOne nums || moreThanOne catIds
        || moreThanOne parentIds || moreThanOne types) = true := by
      rcases h with ⟨xs, hx, hlen⟩ | ⟨ts, ht, hlen⟩
      · rcases hx with hx | hx | hx | hx <;>
          simp [(moreThanOne_iff _).2 ⟨_, hx, hlen⟩]
      · simp [(moreThanOne_iff _).2 ⟨_, ht, hlen⟩]
    simp [getProductsRequest, huse]
  · intro incl ids parentIds rev nums codes h
    have huse : (moreThanOne ids || moreThanOne parentIds || moreThanOne nums
        || moreThanOne codes) = true := by
      rcases h with ⟨xs, hx, hlen⟩
      rcases hx with hx | hx | hx | hx <;>
        simp [(moreThanOne_iff _).2 ⟨_, hx, hlen⟩]
    simp [getProductGroupsRequest, huse]
  · intro incl ids rev h
    have huse : moreThanOne ids = true := (moreThanOne_iff _).2 h
    simp [getUserCategoriesRequest, huse]
  · rintro l (rfl | rfl) <;> rfl
  · intro v hv; simp [wrapStr, singleOf, hv]
  · intro t; rfl
  · rfl
  · intro v hv; simp [postParentIds, wrapStr, singleOf, hv]
  · rfl
  · intro incl ids nums types catIds parentIds h ht
    have h1 := moreThanOne_eq_false ids (fun xs hx => h xs (Or.inl hx))
    have h2 := moreThanOne_eq_false nums (fun xs hx => h xs (Or.inr (Or.inl hx)))
    have h3 := moreThanOne_eq_false catIds
      (fun xs hx => h xs (Or.inr (Or.inr (Or.inl hx))))
    have h4 := moreThanOne_eq_false parentIds
      (fun xs hx => h xs (Or.inr (Or.inr (Or.inr hx))))
    have h5 := moreThanOne_eq_false types ht
    simp [getProductsRequest, h1, h2, h3, h4, h5]
  · intro incl ids parentIds rev nums codes h
    have h1 := moreThanOne_eq_false ids (fun xs hx => h xs (Or.inl hx))
    have h2 := moreThanOne_eq_false parentIds
      (fun xs hx => h xs (Or.inr (Or.inl hx)))
    have h3 := moreThanOne_eq_false nums
      (fun xs hx => h xs (Or.inr (Or.inr (Or.inl hx))))
    have h4 := moreThanOne_eq_false codes
      (fun xs hx => h xs (Or.inr (Or.inr (Or.inr hx))))
    simp [getProductGroupsRequest, h1, h2, h3, h4]
  · intro incl ids rev h
    have h1 := moreThanOne_eq_false ids h
    simp [getUserCategoriesRequest, h1]

/-- Witness for the amended C8 theorem: a two-element `nums` filter selects
the GET encoding; a call with a singleton `ids` and an empty `parent_ids`
selects POST carrying `ids` as the single value and `parent_ids` as the
explicit empty list. -/
theorem listRead_encoding_rules_witness :
    getProductsRequest none none (some ["7", "8"]) none none none
      = .get none none (some ["7", "8"]) none none none ∧
    getProductsRequest none (some ["a"]) none none none (some [])
      = .post none (some ["a"]) none none none (some []) ∧
    getUserCategoriesRequest none (some ["c"]) none
      = .post none (some ["c"]) none := by
  refine ⟨listRead_encoding_rules.1 none none (some ["7", "8"]) none none none
      (Or.inl ⟨["7", "8"], Or.inr (Or.inl rfl), by decide⟩), ?_, ?_⟩
  · have h := listRead_encoding_rules.2.2.2.2.2.2.2.2.2.1 none (some ["a"]) none
      none none (some [])
    have hr := h (by rintro xs (hx | hx | hx | hx) <;> simp_all <;>
        (subst hx; decide)) (by rintro ts ht <;> simp_all)
    simpa [wrapStr, singleOf, postParentIds] using hr
  · have h := listRead_encoding_rules.2.2.2.2.2.2.2.2.2.2.2 none (some ["c"]) none
    have hr := h (by rintro xs hx <;> simp_all <;> (subst hx; decide))
    simpa [wrapStr, singleOf] using hr

/-! ## C3 — invocation discipline of `execute_with_retry` -/

/-- C3: the wrapped operation is invoked at most twice; a first failure not
classified as a 401 leaves exactly one invocation and propagates the error
unchanged; a first 401 failure followed by a successful refresh leads to
exactly one more invocation whose outcome — success or failure, including a
second 401 — is returned or raised without further retry. -/
theorem executeWithRetry_discipline :
    (∀ (α : Type) (ensure : Option AuthExc) (s : TMState) (f : FetchOutcome)
        (op : Nat → OpResult α), (executeWithRetry ensure s f op).2.2 ≤ 2) ∧
    (∀ (α : Type) (s : TMState) (f : FetchOutcome) (op : Nat → OpResult α)
        (e : ApiError), op 0 = .err e → is401 e = false →
        executeWithRetry none s f op = (s, .apiErr e, 1)) ∧
    (∀ (α : Type) (s : TMState) (f : FetchOutcome) (op : Nat → OpResult α)
        (e : ApiError) (v : α), op 0 = .err e → is401 e = true →
        (refreshTokenIf401 s e f).2.1 = .refreshed → op 1 = .ok v →
        executeWithRetry none s f op = ((refreshTokenIf401 s e f).1, .ok v, 2)) ∧
    (∀ (α : Type) (s : TMState) (f : FetchOutcome) (op : Nat → OpResult α)
        (e e2 : ApiError), op 0 = .err e → is401 e = true →
        (refreshTokenIf401 s e f).2.1 = .refreshed → op 1 = .err e2 →
        executeWithRetry none s f op
          = ((refreshTokenIf401 s e f).1, .apiErr e2, 2)) := by
  refine ⟨?_, ?_, ?_, ?_⟩
  · intro α ensure s f op
    cases ensure with
    | some a => simp [executeWithRetry]
    | none =>
      rcases h0 : op 0 with v | e
      · simp [executeWithRetry, h0]
      · by_cases h4 : is401 e
        · rcases hr : refreshTokenIf401 s e f with ⟨s', r, n⟩
          cases r <;> rcases h1 : op 1 <;>
            simp [executeWithRetry, h0, h4, hr, h1]
        · simp [executeWithRetry, h0, h4]
  · intro α s f op e h0 h4
    simp [executeWithRetry, h0, h4]
  · intro α s f op e v h0 h4 hre h1
    rcases hr : refreshTokenIf401 s e f with ⟨s', r, n⟩
    rw [hr] at hre
    simp only at hre
    subst hre
    simp [executeWithRetry, h0, h4, hr, h1]
  · intro α s f op e e2 h0 h4 hre h1
    rcases hr : refreshTokenIf401 s e f with ⟨s', r, n⟩
    rw [hr] at hre
    simp only at hre
    subst hre
    simp [executeWithRetry, h0, h4, hr, h1]

/-- Witness for C3: an operation failing with a 401 once and then succeeding
is invoked exactly twice and its second result is returned; a non-401 failure
is invoked once and propagates. -/
theorem executeWithRetry_discipline_witness :
    executeWithRetry none (initTM 0 "l" "p" "k") (.ok "tok")
        (fun k => if k = 0 then .err ⟨true, none⟩ else .ok (42 : Nat))
      = ((refreshTokenIf401 (initTM 0 "l" "p" "k") ⟨true, none⟩ (.ok "tok")).1,
          .ok 42, 2) ∧
    executeWithRetry none (initTM 0 "l" "p" "k") (.ok "tok")
        (fun _ => (.err ⟨false, some 500⟩ : OpResult Nat))
      = (initTM 0 "l" "p" "k", .apiErr ⟨false, some 500⟩, 1) :=
  ⟨executeWithRetry_discipline.2.2.1 Nat (initTM 0 "l" "p" "k") (.ok "tok")
      (fun k => if k = 0 then .err ⟨true, none⟩ else .ok 42) ⟨true, none⟩ 42
      rfl rfl rfl rfl,
   executeWithRetry_discipline.2.1 Nat (initTM 0 "l" "p" "k") (.ok "tok")
      (fun _ => .err ⟨false, some 500⟩) ⟨false, some 500⟩ rfl rfl⟩

/-! ## C5 — fetch failure during a refresh -/

/-- C5: when the fetch protocol fails during a refresh, the stored token is
absent afterwards, the transport's auth key is cleared, the refresh event is
set again, the failure propagates as a raised `IikoServerAuthException`,
and a subsequent call performs the fetch from scratch exactly once. -/
theorem refresh_failure_resets_state :
    ∀ (s : TMState) (err : ApiError) (o : FetchOutcome),
      is401 err = true → (∀ tok, o ≠ .ok tok) →
      (refreshTokenIf401 s err o).1.token = none ∧
      (refreshTokenIf401 s err o).1.apiKey = none ∧
      (refreshTokenIf401 s err o).1.eventSet = true ∧
      (∃ e, (refreshTokenIf401 s err o).2.1 = .raisedE e) ∧
      ∀ tok : String,
        (ensureToken (refreshTokenIf401 s err o).1 (.ok tok)).2.2 = 1 ∧
        (ensureToken (refreshTokenIf401 s err o).1 (.ok tok)).1.token = some tok ∧
        (ensureToken (refreshTokenIf401 s err o).1 (.ok tok)).1.apiKey = some tok := by
  intro s err o h401 hno
  cases o with
  | ok tok => exact absurd rfl (hno tok)
  | unauthorized =>
    simp [refreshTokenIf401, h401, fetchTokenStep, ensureToken, setToken]
  | failed m =>
    simp [refreshTokenIf401, h401, fetchTokenStep, ensureToken, setToken]

/-- Witness for C5 at a concrete state holding a token, a 401 error and a
network failure during the refresh fetch. -/
theorem refresh_failure_resets_state_witness :
    (refreshTokenIf401 (setToken (initTM 0 "l" "p" "k") "old") ⟨false, some 401⟩
        (.failed "net down")).1.token = none ∧
    (∃ e, (refreshTokenIf401 (setToken (initTM 0 "l" "p" "k") "old")
        ⟨false, some 401⟩ (.failed "net down")).2.1 = .raisedE e) ∧
    (ensureToken (refreshTokenIf401 (setToken (initTM 0 "l" "p" "k") "old")
        ⟨false, some 401⟩ (.failed "net down")).1 (.ok "t2")).1.token = some "t2" :=
  ⟨(refresh_failure_resets_state _ _ _ (by decide)
      (fun tok h => FetchOutcome.noConfusion h)).1,
   (refresh_failure_resets_state _ _ _ (by decide)
      (fun tok h => FetchOutcome.noConfusion h)).2.2.2.1,
   ((refresh_failure_resets_state _ _ _ (by decide)
      (fun tok h => FetchOutcome.noConfusion h)).2.2.2.2 "t2").2.1⟩

/-! ## C6 — version counter monotonicity -/

/-- C6: every successful token acquisition — initial `ensure_token` fetch,
uncontended refresh, or a completing fetch in the interleaving machine —
increments the version by exactly one (hence strictly increases it), and no
operation (including failures and logout) ever decreases it. -/
theorem tokenVersion_monotone :
    (∀ (s : TMState) (tok : String), s.token = none →
        (ensureToken s (.ok tok)).1.tokenVersion = s.tokenVersion + 1 ∧
        (ensureToken s (.ok tok)).1.token = some tok) ∧
    (∀ (s : TMState) (err : ApiError) (tok : String), is401 err = true →
        (refreshTokenIf401 s err (.ok tok)).1.tokenVersion = s.tokenVersion + 1 ∧
        (refreshTokenIf401 s err (.ok tok)).1.token = some tok) ∧
    (∀ (s : TMState) (o : FetchOutcome),
        s.tokenVersion ≤ (ensureToken s o).1.tokenVersion) ∧
    (∀ (s : TMState) (e : ApiError) (o : FetchOutcome),
        s.tokenVersion ≤ (refreshTokenIf401 s e o).1.tokenVersion) ∧
    (∀ s : TMState, s.tokenVersion ≤ (logoutTM s).1.tokenVersion) ∧
    (∀ (oracle : Nat → FOutcome) (c : MConfig) (i : Nat),
        c.version ≤ (mstep oracle c i).version) ∧
    (∀ (oracle : Nat → FOutcome) (c : MConfig) (i s0 tok : Nat),
        c.tasks[i]? = some (.fetching s0) → oracle c.fetchCount = .ok tok →
        (mstep oracle c i).version = c.version + 1) := by
  refine ⟨?_, ?_, ?_, ?_, ?_, ?_, ?_⟩
  · intro s tok hnone
    simp [ensureToken, hnone, fetchTokenStep, setToken]
  · intro s err tok h401
    simp [refreshTokenIf401, h401, fetchTokenStep, setToken]
  · intro s o
    by_cases hs : s.token.isSome
    · simp [ensureToken, hs]
    · cases o <;> simp [ensureToken, hs, fetchTokenStep, setToken]
  · intro s e o
    by_cases h4 : is401 e
    · cases o <;> simp [refreshTokenIf401, h4, fetchTokenStep, setToken]
    · simp [refreshTokenIf401, h4]
  · intro s
    cases hs : s.token <;> simp [logoutTM, hs]
  · intro oracle c i
    rcases h : c.tasks[i]? with _ | pc
    · simp [mstep, h]
    · cases pc with
      | failed => simp [mstep, h, checkEvent, setTask]; split <;> simp
      | entered s => simp [mstep, h, checkEvent, setTask]; split <;> simp
      | waiting s => simp [mstep, h, setTask]; split <;> simp
      | acquiring s =>
          simp only [mstep, h]
          split_ifs <;> simp [setTask, acquireConfig]
      | fetching s =>
          rcases ho : oracle c.fetchCount <;> simp [mstep, h, ho, fetchOkConfig, fetchErrConfig]
      | doneTrue => simp [mstep, h]
      | doneRaised => simp [mstep, h]
  · intro oracle c i s0 tok h ho
    simp [mstep, h, ho, fetchOkConfig]

/-- Witness for C6 at concrete states and a concrete machine configuration. -/
theorem tokenVersion_monotone_witness :
    (ensureToken (initTM 0 "l" "p" "k") (.ok "t")).1.tokenVersion
        = (initTM 0 "l" "p" "k").tokenVersion + 1 ∧
    (refreshTokenIf401 (setToken (initTM 0 "l" "p" "k") "t") ⟨true, none⟩
        (.ok "t2")).1.tokenVersion
        = (setToken (initTM 0 "l" "p" "k") "t").tokenVersion + 1 ∧
    (initTM 0 "l" "p" "k").tokenVersion
        ≤ (ensureToken (initTM 0 "l" "p" "k") (.failed "x")).1.tokenVersion ∧
    (mrun (fun k => .ok k) (initCoalesce none 0 2) [0, 0]).version + 1
        = (mstep (fun k => .ok k)
            (mrun (fun k => .ok k) (initCoalesce none 0 2) [0, 0]) 0).version :=
  ⟨(tokenVersion_monotone.1 (initTM 0 "l" "p" "k") "t" rfl).1,
   (tokenVersion_monotone.2.1 (setToken (initTM 0 "l" "p" "k") "t")
      ⟨true, none⟩ "t2" rfl).1,
   tokenVersion_monotone.2.2.1 (initTM 0 "l" "p" "k") (.failed "x"),
   (tokenVersion_monotone.2.2.2.2.2.2 (fun k => .ok k)
      (mrun (fun k => .ok k) (initCoalesce none 0 2) [0, 0]) 0 0 0
      (by decide) (by decide)).symm⟩

/-! ## C7 — global teardown ordering and registry reset -/

/-- Position bound used repeatedly: a successful indexed lookup is below the
list length. -/
theorem lt_length_of_lookup_eq_some {α : Type} {l : List α} {n : Nat} {a : α}
    (h : l[n]? = some a) : n < l.length := by
  by_contra hc
  push_neg at hc
  rw [List.getElem?_eq_none_iff.2 hc] at h
  cases h

/-- C7: global teardown logs out every authority strictly before closing any
facade transport (every logout event precedes every transport-close event in
the emitted order), leaves both registries empty, and a subsequent
`get_instance` for a previously-used identity constructs a brand-new authority
with version 0 and no stored token. -/
theorem closeAll_teardown :
    ∀ w : World,
      (closeAllWorld w).1.tmRegistry = [] ∧
      (closeAllWorld w).1.facadeRegistry = [] ∧
      (∀ (i j : Nat) (k k' : String),
          (closeAllWorld w).2[i]? = some (.logoutCall k) →
          (closeAllWorld w).2[j]? = some (.transportClose k') → i < j) ∧
      (∀ (ac : Nat) (login pw k : String),
          (getTMInstance (closeAllWorld w).1.tmRegistry ac login pw k).2.token
              = none ∧
          (getTMInstance (closeAllWorld w).1.tmRegistry ac login pw k).2.tokenVersion
              = 0) := by
  intro w
  refine ⟨rfl, rfl, ?_, ?_⟩
  · intro i j k k' hi hj
    set A := (tmCloseAll w.tmRegistry).2 with hA
    set B := w.facadeRegistry.map (fun p => TeardownEvent.transportClose p.1)
      with hB
    have hlog : (closeAllWorld w).2 = A ++ B := rfl
    rw [hlog] at hi hj
    have hAonly : ∀ x ∈ A, ∃ k0, x = TeardownEvent.logoutCall k0 := by
      intro x hx
      rw [hA] at hx
      simp only [tmCloseAll, List.mem_filterMap] at hx
      obtain ⟨p, -, hp⟩ := hx
      by_cases ht : p.2.token.isSome
      · rw [if_pos ht] at hp
        exact ⟨p.1, (Option.some.inj hp).symm⟩
      · rw [if_neg ht] at hp
        cases hp
    have hBonly : ∀ x ∈ B, ∃ k0, x = TeardownEvent.transportClose k0 := by
      intro x hx
      rw [hB] at hx
      simp only [List.mem_map] at hx
      obtain ⟨p, -, hp⟩ := hx
      exact ⟨p.1, hp.symm⟩
    have hiA : i < A.length := by
      by_contra hc
      push_neg at hc
      rw [List.getElem?_append_right hc] at hi
      obtain ⟨k0, hk0⟩ := hBonly _ (List.getElem?_mem hi)
      cases hk0
    have hjB : A.length ≤ j := by
      by_contra hc
      push_neg at hc
      rw [List.getElem?_append_left hc] at hj
      obtain ⟨k0, hk0⟩ := hAonly _ (List.getElem?_mem hj)
      cases hk0
    omega
  · intro ac login pw k
    have : (closeAllWorld w).1.tmRegistry = [] := rfl
    rw [this]
    exact ⟨rfl, rfl⟩

/-- Witness for C7 at a concrete world: one authority holding a token and one
facade; the logout precedes the transport close and the re-created authority
is fresh. -/
theorem closeAll_teardown_witness :
    (closeAllWorld ⟨[("h:l", setToken (initTM 0 "l" "p" "h:l") "tk")],
        [("h:l", ⟨⟨"h", "l", "p"⟩, 0⟩)]⟩).1.tmRegistry = [] ∧
    (0 : Nat) < 1 ∧
    (getTMInstance (closeAllWorld ⟨[("h:l", setToken (initTM 0 "l" "p" "h:l") "tk")],
        [("h:l", ⟨⟨"h", "l", "p"⟩, 0⟩)]⟩).1.tmRegistry 1 "l" "p" "h:l").2.token
      = none :=
  ⟨(closeAll_teardown _).1,
   (closeAll_teardown ⟨[("h:l", setToken (initTM 0 "l" "p" "h:l") "tk")],
      [("h:l", ⟨⟨"h", "l", "p"⟩, 0⟩)]⟩).2.2.1 0 1 "h:l" "h:l" (by decide) (by decide),
   ((closeAll_teardown ⟨[("h:l", setToken (initTM 0 "l" "p" "h:l") "tk")],
      [("h:l", ⟨⟨"h", "l", "p"⟩, 0⟩)]⟩).2.2.2 1 "l" "p" "h:l").1⟩

/-! ## Machine step equations -/

/-- Indexing after replacing one task. -/
theorem setTask_lookup {c : MConfig} {i : Nat} {x : RPC}
    (hget : c.tasks[i]? = some x) (pc : RPC) (j : Nat) :
    (setTask c i pc).tasks[j]? = if i = j then some pc else c.tasks[j]? := by
  by_cases hij : i = j
  · subst hij
    rw [if_pos rfl]
    exact List.getElem?_set_eq_of_lt pc (lt_length_of_lookup_eq_some hget)
  · rw [if_neg hij]
    exact List.getElem?_set_ne hij

/-- A scheduling step on a missing task is a no-op. -/
theorem mstep_none {oracle : Nat → FOutcome} {c : MConfig} {i : Nat}
    (hget : c.tasks[i]? = none) : mstep oracle c i = c := by
  simp [mstep, hget]

/-- A step of a task at `failed` reads the snapshot from the current version
and checks the event. -/
theorem mstep_failed {oracle : Nat → FOutcome} {c : MConfig} {i : Nat}
    (hget : c.tasks[i]? = some .failed) :
    mstep oracle c i = checkEvent c i c.version := by
  simp [mstep, hget]

/-- A step of a task at `entered s` checks the event with snapshot `s`. -/
theorem mstep_entered {oracle : Nat → FOutcome} {c : MConfig} {i s : Nat}
    (hget : c.tasks[i]? = some (.entered s)) :
    mstep oracle c i = checkEvent c i s := by
  simp [mstep, hget]

/-- A waiting task wakes once the event is set, returning `True`. -/
theorem mstep_waiting_set {oracle : Nat → FOutcome} {c : MConfig} {i s : Nat}
    (hget : c.tasks[i]? = some (.waiting s)) (he : c.eventSet = true) :
    mstep oracle c i = setTask c i .doneTrue := by
  simp [mstep, hget, he]

/-- A waiting task stays blocked while the event is clear. -/
theorem mstep_waiting_clear {oracle : Nat → FOutcome} {c : MConfig} {i s : Nat}
    (hget : c.tasks[i]? = some (.waiting s)) (he : c.eventSet = false) :
    mstep oracle c i = c := by
  simp [mstep, hget, he]

/-- A task cannot acquire a held lock. -/
theorem mstep_acquiring_locked {oracle : Nat → FOutcome} {c : MConfig}
    {i s : Nat} (hget : c.tasks[i]? = some (.acquiring s))
    (hl : c.lockOwner ≠ none) : mstep oracle c i = c := by
  simp [mstep, hget, hl]

/-- Acquiring the free lock with an unchanged version clears the event, wipes
the transport auth key and starts the fetch. -/
theorem mstep_acquiring_match {oracle : Nat → FOutcome} {c : MConfig}
    {i s : Nat} (hget : c.tasks[i]? = some (.acquiring s))
    (hl : c.lockOwner = none) (hv : c.version = s) :
    mstep oracle c i = acquireConfig c i s := by
  simp [mstep, hget, hl, hv]

/-- Acquiring the free lock with an advanced version releases immediately and
returns `True` without fetching. -/
theorem mstep_acquiring_mismatch {oracle : Nat → FOutcome} {c : MConfig}
    {i s : Nat} (hget : c.tasks[i]? = some (.acquiring s))
    (hl : c.lockOwner = none) (hv : c.version ≠ s) :
    mstep oracle c i = setTask c i .doneTrue := by
  simp [mstep, hget, hl, hv]

/-- A successful fetch stores the token, binds the api key, bumps the
version, sets the event, releases the lock and returns `True`. -/
theorem mstep_fetching_ok {oracle : Nat → FOutcome} {c : MConfig}
    {i s tok : Nat} (hget : c.tasks[i]? = some (.fetching s))
    (ho : oracle c.fetchCount = .ok tok) :
    mstep oracle c i = fetchOkConfig c i tok := by
  simp [mstep, hget, ho]

/-- A failed fetch resets the token state, sets the event, releases the lock
and propagates the exception. -/
theorem mstep_fetching_err {oracle : Nat → FOutcome} {c : MConfig}
    {i s : Nat} (hget : c.tasks[i]? = some (.fetching s))
    (ho : oracle c.fetchCount = .err) :
    mstep oracle c i = fetchErrConfig c i := by
  simp [mstep, hget, ho]

/-- A finished task never moves again. -/
theorem mstep_done {oracle : Nat → FOutcome} {c : MConfig} {i : Nat}
    (hget : c.tasks[i]? = some .doneTrue ∨ c.tasks[i]? = some .doneRaised) :
    mstep oracle c i = c := by
  rcases hget with h | h <;> simp [mstep, h]

/-- Steps preserve the number of tasks. -/
theorem mstep_tasks_length (oracle : Nat → FOutcome) (c : MConfig) (i : Nat) :
    (mstep oracle c i).tasks.length = c.tasks.length := by
  rcases h : c.tasks[i]? with _ | pc
  · simp [mstep, h]
  · cases pc with
    | failed => simp [mstep, h, checkEvent, setTask]; split <;> simp
    | entered s => simp [mstep, h, checkEvent, setTask]; split <;> simp
    | waiting s => simp [mstep, h, setTask]; split <;> simp
    | acquiring s =>
        simp only [mstep, h]
        split_ifs <;> simp [setTask, acquireConfig]
    | fetching s => rcases ho : oracle c.fetchCount <;> simp [mstep, h, ho, fetchOkConfig, fetchErrConfig]
    | doneTrue => simp [mstep, h]
    | doneRaised => simp [mstep, h]

/-- Runs preserve the number of tasks. -/
theorem mrun_tasks_length (oracle : Nat → FOutcome) (c : MConfig)
    (sched : List Nat) : (mrun oracle c sched).tasks.length = c.tasks.length := by
  induction sched generalizing c with
  | nil => rfl
  | cons j rest ih =>
      rw [show mrun oracle c (j :: rest) = mrun oracle (mstep oracle c j) rest
        from rfl, ih, mstep_tasks_length]

/-- The version never decreases across a step. -/
theorem mstep_version_le (oracle : Nat → FOutcome) (c : MConfig) (i : Nat) :
    c.version ≤ (mstep oracle c i).version := by
  rcases h : c.tasks[i]? with _ | pc
  · simp [mstep, h]
  · cases pc with
    | failed => simp [mstep, h, checkEvent, setTask]; split <;> simp
    | entered s => simp [mstep, h, checkEvent, setTask]; split <;> simp
    | waiting s => simp [mstep, h, setTask]; split <;> simp
    | acquiring s =>
        simp only [mstep, h]
        split_ifs <;> simp [setTask, acquireConfig]
    | fetching s => rcases ho : oracle c.fetchCount <;> simp [mstep, h, ho, fetchOkConfig, fetchErrConfig]
    | doneTrue => simp [mstep, h]
    | doneRaised => simp [mstep, h]

/-- The fetch counter never decreases across a step. -/
theorem mstep_fetchCount_le (oracle : Nat → FOutcome) (c : MConfig) (i : Nat) :
    c.fetchCount ≤ (mstep oracle c i).fetchCount := by
  rcases h : c.tasks[i]? with _ | pc
  · simp [mstep, h]
  · cases pc with
    | failed => simp [mstep, h, checkEvent, setTask]; split <;> simp
    | entered s => simp [mstep, h, checkEvent, setTask]; split <;> simp
    | waiting s => simp [mstep, h, setTask]; split <;> simp
    | acquiring s =>
        simp only [mstep, h]
        split_ifs <;> simp [setTask, acquireConfig]
    | fetching s => rcases ho : oracle c.fetchCount <;> simp [mstep, h, ho, fetchOkConfig, fetchErrConfig]
    | doneTrue => simp [mstep, h]
    | doneRaised => simp [mstep, h]

/-! ## Invariant preservation -/

/-- Replacing a non-fetching task by a non-fetching program counter, with a
snapshot bound for a new waiting or entered counter, preserves the machine
invariant (the shared state is untouched). -/
theorem MachineInv_setTask_nonfetch {c : MConfig} {i : Nat} {pc0 pc : RPC}
    (h : MachineInv c) (hget : c.tasks[i]? = some pc0)
    (hold : ∀ s : Nat, pc0 ≠ RPC.fetching s)
    (hnew : ∀ s : Nat, pc ≠ RPC.fetching s)
    (hwaitNew : ∀ s : Nat, pc = RPC.waiting s →
      s ≤ c.version ∧ (c.eventSet = false ∨ (s < c.version ∧ c.token.isSome = true)))
    (hentNew : ∀ s : Nat, pc = RPC.entered s → s ≤ c.version) :
    MachineInv (setTask c i pc) := by
  have hlk : ∀ j : Nat, (setTask c i pc).tasks[j]?
      = if i = j then some pc else c.tasks[j]? := setTask_lookup hget pc
  refine ⟨?_, ?_, ?_, ?_, ?_⟩
  · intro j s hj
    rw [hlk j] at hj
    by_cases hij : i = j
    · rw [if_pos hij] at hj
      exact absurd (Option.some.inj hj) (hnew s)
    · rw [if_neg hij] at hj
      exact h.fetch_lock j s hj
  · intro j hlo
    obtain ⟨s, hj⟩ := h.lock_fetch j hlo
    refine ⟨s, ?_⟩
    rw [hlk j]
    by_cases hij : i = j
    · subst hij
      rw [hget] at hj
      exact absurd (Option.some.inj hj) (hold s)
    · rw [if_neg hij]
      exact hj
  · intro he
    obtain ⟨j, s, hj⟩ := h.event_fetch he
    refine ⟨j, s, ?_⟩
    rw [hlk j]
    by_cases hij : i = j
    · subst hij
      rw [hget] at hj
      exact absurd (Option.some.inj hj) (hold s)
    · rw [if_neg hij]
      exact hj
  · intro j s hj
    by_cases hij : i = j
    · rcases hj with hj | hj
      · rw [hlk j, if_pos hij] at hj
        exact (hwaitNew s (Option.some.inj hj)).1
      · rw [hlk j, if_pos hij] at hj
        exact hentNew s (Option.some.inj hj)
    · rcases hj with hj | hj
      · rw [hlk j, if_neg hij] at hj
        exact h.snap_le j s (Or.inl hj)
      · rw [hlk j, if_neg hij] at hj
        exact h.snap_le j s (Or.inr hj)
  · intro j s hj
    rw [hlk j] at hj
    by_cases hij : i = j
    · rw [if_pos hij] at hj
      exact (hwaitNew s (Option.some.inj hj)).2
    · rw [if_neg hij] at hj
      exact h.wait_fresh j s hj

/-- Every machine step preserves the invariant when the authentication
endpoint answers successfully. -/
theorem MachineInv_step (oracle : Nat → FOutcome) (hSucc : AllFetchesOk oracle)
    (c : MConfig) (i : Nat) (h : MachineInv c) : MachineInv (mstep oracle c i) := by
  rcases hget : c.tasks[i]? with _ | pc
  · rw [mstep_none hget]
    exact h
  cases pc with
  | failed =>
      rw [mstep_failed hget]
      unfold checkEvent
      by_cases he : c.eventSet = true
      · rw [if_pos he]
        exact MachineInv_setTask_nonfetch h hget
          (fun s hs => RPC.noConfusion hs) (fun s hs => RPC.noConfusion hs)
          (fun s hs => RPC.noConfusion hs) (fun s hs => RPC.noConfusion hs)
      · have he' : c.eventSet = false := by
          revert he
          cases c.eventSet <;> simp
        rw [if_neg he]
        refine MachineInv_setTask_nonfetch h hget
          (fun s hs => RPC.noConfusion hs) (fun s hs => RPC.noConfusion hs)
          ?_ (fun s hs => RPC.noConfusion hs)
        intro s hs
        have : c.version = s := by
          cases hs
          rfl
        exact ⟨this ▸ Nat.le_refl _, Or.inl he'⟩
  | entered s =>
      rw [mstep_entered hget]
      unfold checkEvent
      have hsv : s ≤ c.version := h.snap_le i s (Or.inr hget)
      by_cases he : c.eventSet = true
      · rw [if_pos he]
        exact MachineInv_setTask_nonfetch h hget
          (fun s' hs => RPC.noConfusion hs) (fun s' hs => RPC.noConfusion hs)
          (fun s' hs => RPC.noConfusion hs) (fun s' hs => RPC.noConfusion hs)
      · have he' : c.eventSet = false := by
          revert he
          cases c.eventSet <;> simp
        rw [if_neg he]
        refine MachineInv_setTask_nonfetch h hget
          (fun s' hs => RPC.noConfusion hs) (fun s' hs => RPC.noConfusion hs)
          ?_ (fun s' hs => RPC.noConfusion hs)
        intro s' hs
        have hss : s = s' := by
          cases hs
          rfl
        exact ⟨hss ▸ hsv, Or.inl he'⟩
  | waiting s =>
      by_cases he : c.eventSet = true
      · rw [mstep_waiting_set hget he]
        exact MachineInv_setTask_nonfetch h hget
          (fun s' hs => RPC.noConfusion hs) (fun s' hs => RPC.noConfusion hs)
          (fun s' hs => RPC.noConfusion hs) (fun s' hs => RPC.noConfusion hs)
      · have he' : c.eventSet = false := by
          revert he
          cases c.eventSet <;> simp
        rw [mstep_waiting_clear hget he']
        exact h
  | acquiring s =>
      rcases hl : c.lockOwner with _ | j
      · by_cases hv : c.version = s
        · rw [mstep_acquiring_match hget hl hv]
          have hlk : ∀ j : Nat, (acquireConfig c i s).tasks[j]?
                = if i = j then some (RPC.fetching s) else c.tasks[j]? :=
            fun j => setTask_lookup hget (RPC.fetching s) j
          refine ⟨?_, ?_, ?_, ?_, ?_⟩
          · intro j s' hj
            rw [hlk j] at hj
            by_cases hij : i = j
            · have hs' : s = s' := by
                rw [if_pos hij] at hj
                cases Option.some.inj hj
                rfl
              subst hij
              exact ⟨rfl, rfl, hs' ▸ hv⟩
            · rw [if_neg hij] at hj
              obtain ⟨hlo, -, -⟩ := h.fetch_lock j s' hj
              rw [hl] at hlo
              cases hlo
          · intro j hlo
            have hij : i = j := by
              cases hlo
              rfl
            refine ⟨s, ?_⟩
            rw [hlk j, if_pos hij]
          · intro _
            refine ⟨i, s, ?_⟩
            rw [hlk i, if_pos rfl]
          · intro j s' hj
            rcases hj with hj | hj
            · rw [hlk j] at hj
              by_cases hij : i = j
              · rw [if_pos hij] at hj
                cases Option.some.inj hj
              · rw [if_neg hij] at hj
                exact h.snap_le j s' (Or.inl hj)
            · rw [hlk j] at hj
              by_cases hij : i = j
              · rw [if_pos hij] at hj
                cases Option.some.inj hj
              · rw [if_neg hij] at hj
                exact h.snap_le j s' (Or.inr hj)
          · intro j s' hj
            exact Or.inl rfl
        · rw [mstep_acquiring_mismatch hget hl hv]
          exact MachineInv_setTask_nonfetch h hget
            (fun s' hs => RPC.noConfusion hs) (fun s' hs => RPC.noConfusion hs)
            (fun s' hs => RPC.noConfusion hs) (fun s' hs => RPC.noConfusion hs)
      · rw [mstep_acquiring_locked hget (by rw [hl]; intro hx; cases hx)]
        exact h
  | fetching s =>
      obtain ⟨tok, ho⟩ := hSucc c.fetchCount
      obtain ⟨hlo, hev, hver⟩ := h.fetch_lock i s hget
      rw [mstep_fetching_ok hget ho]
      have hlk : ∀ j : Nat, (fetchOkConfig c i tok).tasks[j]?
            = if i = j then some RPC.doneTrue else c.tasks[j]? :=
        fun j => setTask_lookup hget RPC.doneTrue j
      refine ⟨?_, ?_, ?_, ?_, ?_⟩
      · intro j s' hj
        rw [hlk j] at hj
        by_cases hij : i = j
        · rw [if_pos hij] at hj
          cases Option.some.inj hj
        · rw [if_neg hij] at hj
          obtain ⟨hlo', -, -⟩ := h.fetch_lock j s' hj
          rw [hlo] at hlo'
          exact absurd (Option.some.inj hlo') hij
      · intro j hlo'
        cases hlo'
      · intro he
        cases he
      · intro j s' hj
        rcases hj with hj | hj
        · rw [hlk j] at hj
          by_cases hij : i = j
          · rw [if_pos hij] at hj
            cases Option.some.inj hj
          · rw [if_neg hij] at hj
            exact Nat.le_succ_of_le (h.snap_le j s' (Or.inl hj))
        · rw [hlk j] at hj
          by_cases hij : i = j
          · rw [if_pos hij] at hj
            cases Option.some.inj hj
          · rw [if_neg hij] at hj
            exact Nat.le_succ_of_le (h.snap_le j s' (Or.inr hj))
      · intro j s' hj
        rw [hlk j] at hj
        by_cases hij : i = j
        · rw [if_pos hij] at hj
          cases Option.some.inj hj
        · rw [if_neg hij] at hj
          refine Or.inr ⟨?_, rfl⟩
          exact Nat.lt_succ_of_le (h.snap_le j s' (Or.inl hj))
  | doneTrue =>
      rw [mstep_done (Or.inl hget)]
      exact h
  | doneRaised =>
      rw [mstep_done (Or.inr hget)]
      exact h

/-- The machine invariant holds after any schedule. -/
theorem MachineInv_mrun (oracle : Nat → FOutcome) (hSucc : AllFetchesOk oracle)
    (c : MConfig) (sched : List Nat) (h : MachineInv c) :
    MachineInv (mrun oracle c sched) := by
  induction sched generalizing c with
  | nil => exact h
  | cons j rest ih => exact ih _ (MachineInv_step oracle hSucc c j h)

/-- A `failed` counter is not a coalescing-episode counter. -/
theorem snapPC_failed {v0 : Nat} (h : SnapPC v0 RPC.failed) : False := by
  rcases h with h | h | h | h | h <;> cases h

/-- A `doneRaised` counter is not a coalescing-episode counter. -/
theorem snapPC_doneRaised {v0 : Nat} (h : SnapPC v0 RPC.doneRaised) : False := by
  rcases h with h | h | h | h | h <;> cases h

/-- Snapshot of an `entered` counter in a coalescing episode. -/
theorem snapPC_entered {v0 s : Nat} (h : SnapPC v0 (RPC.entered s)) : s = v0 := by
  rcases h with h | h | h | h | h <;> cases h
  rfl

/-- Snapshot of a `waiting` counter in a coalescing episode. -/
theorem snapPC_waiting {v0 s : Nat} (h : SnapPC v0 (RPC.waiting s)) : s = v0 := by
  rcases h with h | h | h | h | h <;> cases h
  rfl

/-- Snapshot of an `acquiring` counter in a coalescing episode. -/
theorem snapPC_acquiring {v0 s : Nat} (h : SnapPC v0 (RPC.acquiring s)) :
    s = v0 := by
  rcases h with h | h | h | h | h <;> cases h
  rfl

/-- Snapshot of a `fetching` counter in a coalescing episode. -/
theorem snapPC_fetching {v0 s : Nat} (h : SnapPC v0 (RPC.fetching s)) :
    s = v0 := by
  rcases h with h | h | h | h | h <;> cases h
  rfl

/-- Every machine step preserves the coalescing invariant when the
authentication endpoint answers successfully. -/
theorem CoalesceInv_step (oracle : Nat → FOutcome) (hSucc : AllFetchesOk oracle)
    (v0 : Nat) (c : MConfig) (i : Nat) (h : CoalesceInv v0 c) :
    CoalesceInv v0 (mstep oracle c i) := by
  have hbase := MachineInv_step oracle hSucc c i h.base
  rcases hget : c.tasks[i]? with _ | pc
  · rw [mstep_none hget] at hbase ⊢
    exact ⟨hbase, h.version_count, h.count_le, h.snaps, h.done_count⟩
  have hsnap := h.snaps pc (List.getElem?_mem hget)
  cases pc with
  | failed => exact absurd hsnap snapPC_failed
  | doneRaised => exact absurd hsnap snapPC_doneRaised
  | entered s =>
      have hs0 : s = v0 := snapPC_entered hsnap
      subst s
      rw [mstep_entered hget] at hbase ⊢
      unfold checkEvent at hbase ⊢
      by_cases he : c.eventSet = true
      · rw [if_pos he] at hbase ⊢
        refine ⟨hbase, h.version_count, h.count_le, ?_, ?_⟩
        · intro pc hpc
          rcases List.mem_or_eq_of_mem_set hpc with hm | hm
          · exact h.snaps pc hm
          · rw [hm]
            exact Or.inr (Or.inr (Or.inl rfl))
        · intro hd
          rcases List.mem_or_eq_of_mem_set hd with hm | hm
          · exact h.done_count hm
          · cases hm
      · rw [if_neg he] at hbase ⊢
        refine ⟨hbase, h.version_count, h.count_le, ?_, ?_⟩
        · intro pc hpc
          rcases List.mem_or_eq_of_mem_set hpc with hm | hm
          · exact h.snaps pc hm
          · rw [hm]
            exact Or.inr (Or.inl rfl)
        · intro hd
          rcases List.mem_or_eq_of_mem_set hd with hm | hm
          · exact h.done_count hm
          · cases hm
  | waiting s =>
      have hs0 : s = v0 := snapPC_waiting hsnap
      subst s
      by_cases he : c.eventSet = true
      · rw [mstep_waiting_set hget he] at hbase ⊢
        have hcount : 1 ≤ c.fetchCount := by
          rcases h.base.wait_fresh i v0 hget with hev | ⟨hlt, -⟩
          · rw [he] at hev
            cases hev
          · have hvc := h.version_count
            omega
        refine ⟨hbase, h.version_count, h.count_le, ?_, fun _ => hcount⟩
        intro pc hpc
        rcases List.mem_or_eq_of_mem_set hpc with hm | hm
        · exact h.snaps pc hm
        · rw [hm]
          exact Or.inr (Or.inr (Or.inr (Or.inr rfl)))
      · have he' : c.eventSet = false := by
          revert he
          cases c.eventSet <;> simp
        rw [mstep_waiting_clear hget he'] at hbase ⊢
        exact ⟨hbase, h.version_count, h.count_le, h.snaps, h.done_count⟩
  | acquiring s =>
      have hs0 : s = v0 := snapPC_acquiring hsnap
      subst s
      rcases hl : c.lockOwner with _ | j
      · by_cases hv : c.version = v0
        · rw [mstep_acquiring_match hget hl hv] at hbase ⊢
          refine ⟨hbase, h.version_count, h.count_le, ?_, ?_⟩
          · intro pc hpc
            rcases List.mem_or_eq_of_mem_set hpc with hm | hm
            · exact h.snaps pc hm
            · rw [hm]
              exact Or.inr (Or.inr (Or.inr (Or.inl rfl)))
          · intro hd
            rcases List.mem_or_eq_of_mem_set hd with hm | hm
            · exact h.done_count hm
            · cases hm
        · rw [mstep_acquiring_mismatch hget hl hv] at hbase ⊢
          have hcount : 1 ≤ c.fetchCount := by
            have hvc := h.version_count
            omega
          refine ⟨hbase, h.version_count, h.count_le, ?_, fun _ => hcount⟩
          intro pc hpc
          rcases List.mem_or_eq_of_mem_set hpc with hm | hm
          · exact h.snaps pc hm
          · rw [hm]
            exact Or.inr (Or.inr (Or.inr (Or.inr rfl)))
      · rw [mstep_acquiring_locked hget (by rw [hl]; intro hx; cases hx)]
          at hbase ⊢
        exact ⟨hbase, h.version_count, h.count_le, h.snaps, h.done_count⟩
  | fetching s =>
      have hs0 : s = v0 := snapPC_fetching hsnap
      subst s
      obtain ⟨tok, ho⟩ := hSucc c.fetchCount
      obtain ⟨-, -, hver⟩ := h.base.fetch_lock i v0 hget
      have hc0 : c.fetchCount = 0 := by
        have hvc := h.version_count
        omega
      rw [mstep_fetching_ok hget ho] at hbase ⊢
      refine ⟨hbase, ?_, ?_, ?_, ?_⟩
      · show c.version + 1 = v0 + (c.fetchCount + 1)
        omega
      · show c.fetchCount + 1 ≤ 1
        omega
      · intro pc hpc
        rcases List.mem_or_eq_of_mem_set hpc with hm | hm
        · exact h.snaps pc hm
        · rw [hm]
          exact Or.inr (Or.inr (Or.inr (Or.inr rfl)))
      · intro _
        show 1 ≤ c.fetchCount + 1
        omega
  | doneTrue =>
      rw [mstep_done (Or.inl hget)] at hbase ⊢
      exact ⟨hbase, h.version_count, h.count_le, h.snaps, h.done_count⟩

/-- The coalescing invariant holds after any schedule. -/
theorem CoalesceInv_mrun (oracle : Nat → FOutcome) (hSucc : AllFetchesOk oracle)
    (v0 : Nat) (c : MConfig) (sched : List Nat) (h : CoalesceInv v0 c) :
    CoalesceInv v0 (mrun oracle c sched) := by
  induction sched generalizing c with
  | nil => exact h
  | cons j rest ih => exact ih _ (CoalesceInv_step oracle hSucc v0 c j h)

/-- The coalescing invariant holds initially. -/
theorem CoalesceInv_init (tok0 : Option Nat) (v0 n : Nat) :
    CoalesceInv v0 (initCoalesce tok0 v0 n) := by
  refine ⟨⟨?_, ?_, ?_, ?_, ?_⟩, rfl, Nat.zero_le 1, ?_, ?_⟩
  · intro j s hj
    cases List.eq_of_mem_replicate (List.getElem?_mem hj)
  · intro j hlo
    cases hlo
  · intro he
    cases he
  · intro j s hj
    rcases hj with hj | hj
    · cases List.eq_of_mem_replicate (List.getElem?_mem hj)
    · cases List.eq_of_mem_replicate (List.getElem?_mem hj)
      exact Nat.le_refl _
  · intro j s hj
    cases List.eq_of_mem_replicate (List.getElem?_mem hj)
  · intro pc hpc
    cases List.eq_of_mem_replicate hpc
    exact Or.inl rfl
  · intro hd
    cases List.eq_of_mem_replicate hd

/-- The machine invariant holds in the all-`failed` initial configuration. -/
theorem MachineInv_initFailed (tok0 : Option Nat) (v0 n : Nat) :
    MachineInv (initFailed tok0 v0 n) := by
  refine ⟨?_, ?_, ?_, ?_, ?_⟩
  · intro j s hj
    cases List.eq_of_mem_replicate (List.getElem?_mem hj)
  · intro j hlo
    cases hlo
  · intro he
    cases he
  · intro j s hj
    rcases hj with hj | hj
    · cases List.eq_of_mem_replicate (List.getElem?_mem hj)
    · cases List.eq_of_mem_replicate (List.getElem?_mem hj)
  · intro j s hj
    cases List.eq_of_mem_replicate (List.getElem?_mem hj)

/-! ## C1 — refresh coalescing -/

/-- C1: given `n ≥ 1` concurrent invocations of `refresh_token_if_401` for
the same authority, all triggered by 401 errors observed at the same token
version `v0` (the common snapshot captured before any of them ran), and a
healthy authentication endpoint, every schedule that runs all of them to
completion performs exactly one `auth_get` network call, and every invocation
returns the success indication `True` — none propagates the original
authorization error. -/
theorem refresh_coalescing (oracle : Nat → FOutcome)
    (hSucc : AllFetchesOk oracle) (tok0 : Option Nat) (v0 n : Nat)
    (hn : 1 ≤ n) (sched : List Nat)
    (hdone : AllDone (mrun oracle (initCoalesce tok0 v0 n) sched)) :
    (mrun oracle (initCoalesce tok0 v0 n) sched).fetchCount = 1 ∧
    ∀ pc ∈ (mrun oracle (initCoalesce tok0 v0 n) sched).tasks,
      pc = RPC.doneTrue := by
  have hInv := CoalesceInv_mrun oracle hSucc v0 (initCoalesce tok0 v0 n) sched
    (CoalesceInv_init tok0 v0 n)
  have hall : ∀ pc ∈ (mrun oracle (initCoalesce tok0 v0 n) sched).tasks,
      pc = RPC.doneTrue := by
    intro pc hpc
    rcases hdone pc hpc with hd | hd
    · exact hd
    · rw [hd] at hpc
      exact absurd (hInv.snaps _ hpc) snapPC_doneRaised
  refine ⟨?_, hall⟩
  have hlen : (mrun oracle (initCoalesce tok0 v0 n) sched).tasks.length = n := by
    rw [mrun_tasks_length]
    exact List.length_replicate n _
  rcases h0 : (mrun oracle (initCoalesce tok0 v0 n) sched).tasks[0]? with _ | pc
  · rw [List.getElem?_eq_none_iff, hlen] at h0
    omega
  · have hmem := List.getElem?_mem h0
    have hd := hall pc hmem
    rw [hd] at hmem
    have h1 := hInv.done_count hmem
    have h2 := hInv.count_le
    omega

/-- Witness for C1: two coroutines with the same snapshot 0, a healthy
endpoint and a concrete schedule driving both to completion: one fetch, both
return `True`. -/
theorem refresh_coalescing_witness :
    (mrun (fun k => FOutcome.ok k) (initCoalesce none 0 2)
        [0, 0, 0, 1, 1]).fetchCount = 1 ∧
    ∀ pc ∈ (mrun (fun k => FOutcome.ok k) (initCoalesce none 0 2)
        [0, 0, 0, 1, 1]).tasks, pc = RPC.doneTrue :=
  refresh_coalescing (fun k => FOutcome.ok k) (fun k => ⟨k, rfl⟩) none 0 2
    (by decide) [0, 0, 0, 1, 1] (by decide)

/-! ## C2 — the version snapshot and duplicate-fetch prevention -/

/-- C2 counterexample: the snapshot is *not* captured before the operation
runs — `refresh_token_if_401` reads `version_before` at its own entry. In the
interleaving below, task 1's operation has already failed with a 401
(program counter `failed`) when task 0's complete refresh lands
(`fetchCount = 1`, version advanced to 1) — i.e. the refresh completes after
task 1's failing operation finished and before task 1 enters the refresh
protocol. The claim requires task 1 to then skip its own network call; the
code instead has it capture the fresh version as its snapshot, pass the
version double-check, and perform a second `auth_get` (`fetchCount = 2`). -/
theorem snapshot_capture_counterexample :
    (mrun (fun k => FOutcome.ok k)
        ⟨none, none, 0, true, none, 0, [RPC.entered 0, RPC.failed]⟩
        [0, 0, 0]).fetchCount = 1 ∧
    (mrun (fun k => FOutcome.ok k)
        ⟨none, none, 0, true, none, 0, [RPC.entered 0, RPC.failed]⟩
        [0, 0, 0]).tasks[1]? = some RPC.failed ∧
    (mrun (fun k => FOutcome.ok k)
        ⟨none, none, 0, true, none, 0, [RPC.entered 0, RPC.failed]⟩
        [0, 0, 0]).version = 1 ∧
    (mrun (fun k => FOutcome.ok k)
        ⟨none, none, 0, true, none, 0, [RPC.entered 0, RPC.failed]⟩
        [0, 0, 0, 1, 1, 1]).fetchCount = 2 ∧
    (mrun (fun k => FOutcome.ok k)
        ⟨none, none, 0, true, none, 0, [RPC.entered 0, RPC.failed]⟩
        [0, 0, 0, 1, 1, 1]).tasks[1]? = some RPC.doneTrue := by
  decide

/-- C2 (amended): the version snapshot is captured at entry to
`refresh_token_if_401`, after the failing operation returned — a task
stepping from `failed` reads the *current* version as its snapshot. The
snapshot comparison prevents a duplicate fetch exactly for callers whose
snapshot predates the refresh: a caller that reaches the exclusive section
and finds the version different from its snapshot performs no network call
and returns already-refreshed. -/
theorem refresh_snapshot_semantics :
    (∀ (oracle : Nat → FOutcome) (c : MConfig) (i : Nat),
        c.tasks[i]? = some RPC.failed →
        mstep oracle c i = checkEvent c i c.version) ∧
    (∀ (oracle : Nat → FOutcome) (c : MConfig) (i s : Nat),
        c.tasks[i]? = some (RPC.acquiring s) → c.lockOwner = none →
        c.version ≠ s →
        mstep oracle c i = setTask c i RPC.doneTrue ∧
        (mstep oracle c i).fetchCount = c.fetchCount ∧
        (mstep oracle c i).tasks[i]? = some RPC.doneTrue) := by
  constructor
  · intro oracle c i hget
    exact mstep_failed hget
  · intro oracle c i s hget hl hv
    have heq : mstep oracle c i = setTask c i RPC.doneTrue :=
      mstep_acquiring_mismatch hget hl hv
    refine ⟨heq, by rw [heq]; rfl, ?_⟩
    rw [heq, setTask_lookup hget RPC.doneTrue i, if_pos rfl]

/-- Witness for the amended C2 theorem at concrete configurations. -/
theorem refresh_snapshot_semantics_witness :
    mstep (fun k => FOutcome.ok k) ⟨none, none, 5, true, none, 0, [RPC.failed]⟩ 0
      = checkEvent ⟨none, none, 5, true, none, 0, [RPC.failed]⟩ 0 5 ∧
    (mstep (fun k => FOutcome.ok k)
        ⟨some 9, some 9, 3, true, none, 1, [RPC.acquiring 2]⟩ 0).fetchCount = 1 ∧
    (mstep (fun k => FOutcome.ok k)
        ⟨some 9, some 9, 3, true, none, 1, [RPC.acquiring 2]⟩ 0).tasks[0]?
      = some RPC.doneTrue :=
  ⟨refresh_snapshot_semantics.1 (fun k => FOutcome.ok k)
      ⟨none, none, 5, true, none, 0, [RPC.failed]⟩ 0 rfl,
   (refresh_snapshot_semantics.2 (fun k => FOutcome.ok k)
      ⟨some 9, some 9, 3, true, none, 1, [RPC.acquiring 2]⟩ 0 2 rfl rfl
      (by decide)).2.1,
   (refresh_snapshot_semantics.2 (fun k => FOutcome.ok k)
      ⟨some 9, some 9, 3, true, none, 1, [RPC.acquiring 2]⟩ 0 2 rfl rfl
      (by decide)).2.2⟩

/-! ## C4 — what a waiter observes when unblocked -/

/-- C4 counterexample: when the refresh a waiter waited on *fails*, the
waiter is unblocked (the `finally` sets the event), its already-refreshed
`True` return is delivered, yet the authority holds no token and the version
never advanced beyond the one that triggered the wait. Run: task 0 fetches
and the `auth_get` raises; task 1, waiting since the fetch was in flight,
wakes and returns `True` with `token = none` and `version = 0`. -/
theorem waiter_stale_counterexample :
    (mrun (fun _ => FOutcome.err) (initCoalesce (some 7) 0 2)
        [0, 0, 1, 0]).tasks[1]? = some (RPC.waiting 0) ∧
    (mrun (fun _ => FOutcome.err) (initCoalesce (some 7) 0 2)
        [0, 0, 1, 0]).eventSet = true ∧
    (mrun (fun _ => FOutcome.err) (initCoalesce (some 7) 0 2)
        [0, 0, 1, 0, 1]).tasks[1]? = some RPC.doneTrue ∧
    (mrun (fun _ => FOutcome.err) (initCoalesce (some 7) 0 2)
        [0, 0, 1, 0, 1]).token = none ∧
    (mrun (fun _ => FOutcome.err) (initCoalesce (some 7) 0 2)
        [0, 0, 1, 0, 1]).version = 0 := by
  decide

/-- C4 (amended): provided every authentication call of the run succeeds, a
waiter that is unblocked (it is parked on the event and the event is set
again) observes a present token whose version is strictly greater than the
version that triggered its wait — in every interleaving from any population
of callers entering the refresh protocol. -/
theorem waiter_observes_fresh_token (oracle : Nat → FOutcome)
    (hSucc : AllFetchesOk oracle) (tok0 : Option Nat) (v0 n : Nat)
    (sched : List Nat) (i s : Nat)
    (hw : (mrun oracle (initFailed tok0 v0 n) sched).tasks[i]?
        = some (RPC.waiting s))
    (he : (mrun oracle (initFailed tok0 v0 n) sched).eventSet = true) :
    s < (mrun oracle (initFailed tok0 v0 n) sched).version ∧
    ∃ t, (mrun oracle (initFailed tok0 v0 n) sched).token = some t := by
  have hInv := MachineInv_mrun oracle hSucc (initFailed tok0 v0 n) sched
    (MachineInv_initFailed tok0 v0 n)
  rcases hInv.wait_fresh i s hw with hev | ⟨hlt, htok⟩
  · rw [he] at hev
    cases hev
  · refine ⟨hlt, ?_⟩
    rcases ht : (mrun oracle (initFailed tok0 v0 n) sched).token with _ | t
    · rw [ht] at htok
      cases htok
    · exact ⟨t, rfl⟩

/-- Witness for the amended C4 theorem: task 1 begins waiting while task 0's
fetch is in flight; after the successful fetch the event is set, and task 1
observes token 0 at version 1 > 0. -/
theorem waiter_observes_fresh_token_witness :
    (0 : Nat) < (mrun (fun k => FOutcome.ok k) (initFailed (some 7) 0 2)
        [0, 0, 1, 0]).version ∧
    ∃ t, (mrun (fun k => FOutcome.ok k) (initFailed (some 7) 0 2)
        [0, 0, 1, 0]).token = some t :=
  waiter_observes_fresh_token (fun k => FOutcome.ok k) (fun k => ⟨k, rfl⟩)
    (some 7) 0 2 [0, 0, 1, 0] 1 0 (by decide) (by decide)

end IikoVerify
